import Mathlib

/-!
Verification of the gofpdi text-extraction core (package `text` plus the
`FontDefinition` glyph-width model).  Go `float64` values are modelled as
exact rationals (`ℚ`), Go strings as `List Char` of byte-sized characters,
Go maps as association lists (`List (k × v)`) whose list order stands for
the map's iteration order, and Go runtime panics (out-of-range slice
indexing) as the distinguished error value `GoErr.indexPanic`.
-/

namespace Gofpdi

/-- Error values produced by the modelled Go code.  `indexPanic` stands for a
Go runtime panic from out-of-range slice indexing; every other constructor
corresponds to an `error` value returned by the source. -/
inductive GoErr where
  | indexPanic : GoErr
  | glyphRange (char : ℕ) (fontName : String) : GoErr
  | fontNotFound (name : String) : GoErr
  | parseFail (msg : String) : GoErr
  | invalidBlock : GoErr
  | nestedBlock : GoErr
  | unrecognizedOperator (op : List Char) (buff : List Char) : GoErr
  | placementFail : GoErr
  deriving DecidableEq

instance {ε α : Type} [DecidableEq ε] [DecidableEq α] : DecidableEq (Except ε α) := fun x y =>
  match x, y with
  | .ok a, .ok b =>
    if h : a = b then isTrue (by rw [h]) else isFalse (by simp [h])
  | .error a, .error b =>
    if h : a = b then isTrue (by rw [h]) else isFalse (by simp [h])
  | .ok _, .error _ => isFalse (by simp)
  | .error _, .ok _ => isFalse (by simp)

/-- FontDefinition from the source: name, base font, type code, first/last
character codes, per-character advance widths and descriptor reference.
The Go field `Type` (an `int`) is rendered as `FontType`. -/
structure FontDefinition where
  Name : String
  Base : String
  FontType : ℤ
  FirstChar : ℕ
  LastChar : ℕ
  Widths : List ℤ
  Descriptor : ℤ
  deriving DecidableEq

/-- CalculateGlyphWidth from the source.  Faithfully: the guard rejects a
character outside `[FirstChar, LastChar]` with a range error; then the
width table is indexed without a length check (`Widths[char-FirstChar]`),
which in Go panics when the table is too short — modelled by
`GoErr.indexPanic`; word spacing is added for the space byte 32, char
spacing otherwise; finally the horizontal scaling multiplies the result. -/
def FontDefinition.CalculateGlyphWidth (f : FontDefinition) (char : ℕ)
    (tjAdjustment fontSize charSpacing wordSpacing horizontalScaling : ℚ) :
    Except GoErr ℚ :=
  if char < f.FirstChar ∨ char > f.LastChar then
    .error (.glyphRange char f.Name)
  else
    match f.Widths.get? (char - f.FirstChar) with
    | none => .error .indexPanic
    | some w =>
      let width : ℚ := ((w : ℚ) - tjAdjustment / 1000) * fontSize
      let width := if char = 32 then width + wordSpacing else width + charSpacing
      .ok (width * horizontalScaling)

/-- ShowChars from the source: a literal text fragment plus the horizontal
adjustment value that preceded it. -/
structure ShowChars where
  Text : List Char
  HorizAdjust : ℚ
  deriving DecidableEq

/-- ShowOperation from the source: the atomic placed-text unit with the full
rendering-parameter snapshot at placement time. -/
structure ShowOperation where
  chars : List ShowChars
  PageNumber : ℤ
  StartX : ℚ
  StartY : ℚ
  FontSize : ℚ
  Font : FontDefinition
  CharSpacing : ℚ
  WordSpacing : ℚ
  Leading : ℚ
  Scale : ℚ
  RenderMode : ℤ
  Rise : ℚ
  Knockout : ℚ
  deriving DecidableEq

/-- Byte ranges from util.go. -/
def MinNonSpecialAscii : ℕ := 32

/-- Upper bound of the printable band from util.go. -/
def MaxNonSpecialAscii : ℕ := 126

/-- Page width constant from util.go. -/
def LetterPageWidth : ℚ := 59528 / 100

/-- GetText from the source: concatenates the fragments, keeping only bytes
in the printable band 32..126 unless `includeSpecial` is set. -/
def ShowOperation.GetText (s : ShowOperation) (includeSpecial : Bool) : List Char :=
  s.chars.foldl (fun out charsObject =>
    charsObject.Text.foldl (fun out char =>
      if (MinNonSpecialAscii ≤ char.toNat ∧ char.toNat ≤ MaxNonSpecialAscii) ∨ includeSpecial then
        out ++ [char]
      else out) out) []

/-- GetWidth from the source: sums CalculateGlyphWidth over every byte of
every fragment, aborting on the first error. -/
def ShowOperation.GetWidth (s : ShowOperation) : Except GoErr ℚ :=
  s.chars.foldlM (fun width lc =>
    lc.Text.foldlM (fun width c =>
      match s.Font.CalculateGlyphWidth (c.toNat % 256) lc.HorizAdjust s.FontSize
          s.CharSpacing s.WordSpacing s.Scale with
      | .error e => .error e
      | .ok glyphWidth => pure (width + glyphWidth)) width) 0

end Gofpdi

namespace Gofpdi

/-- LinearMatrix from the source: the full 3x3 grid is stored (the third
column only aids the maths), with component `gij` at row i, column j. -/
structure LinearMatrix where
  g00 : ℚ
  g01 : ℚ
  g02 : ℚ
  g10 : ℚ
  g11 : ℚ
  g12 : ℚ
  g20 : ℚ
  g21 : ℚ
  g22 : ℚ
  deriving DecidableEq

/-- NewDefaultMatrix from the source: the identity grid. -/
def NewDefaultMatrix : LinearMatrix := ⟨1, 0, 0, 0, 1, 0, 0, 0, 1⟩

/-- ScaleX accessor (row 0, col 0). -/
def LinearMatrix.GetScaleX (l : LinearMatrix) : ℚ := l.g00

/-- ShearX accessor (row 0, col 1). -/
def LinearMatrix.GetShearX (l : LinearMatrix) : ℚ := l.g01

/-- ShearY accessor (row 1, col 0). -/
def LinearMatrix.GetShearY (l : LinearMatrix) : ℚ := l.g10

/-- ScaleY accessor (row 1, col 1). -/
def LinearMatrix.GetScaleY (l : LinearMatrix) : ℚ := l.g11

/-- OffsetX accessor (row 2, col 0). -/
def LinearMatrix.GetOffsetX (l : LinearMatrix) : ℚ := l.g20

/-- OffsetY accessor (row 2, col 1). -/
def LinearMatrix.GetOffsetY (l : LinearMatrix) : ℚ := l.g21

/-- OffsetX setter. -/
def LinearMatrix.SetOffsetX (l : LinearMatrix) (value : ℚ) : LinearMatrix :=
  { l with g20 := value }

/-- OffsetY setter. -/
def LinearMatrix.SetOffsetY (l : LinearMatrix) (value : ℚ) : LinearMatrix :=
  { l with g21 := value }

/-- Translate from the source: applies the linear part to the delta before
adding into the offsets. -/
def LinearMatrix.Translate (l : LinearMatrix) (offsetX offsetY : ℚ) : LinearMatrix :=
  let newX := l.GetScaleX * offsetX + l.GetShearY * offsetY + l.GetOffsetX
  let newY := l.GetShearX * offsetX + l.GetScaleY * offsetY + l.GetOffsetY
  (l.SetOffsetX newX).SetOffsetY newY

/-- Set from the source: overwrite the six working components, leaving the
helper third column untouched. -/
def LinearMatrix.Set (l : LinearMatrix) (a b c d e f : ℚ) : LinearMatrix :=
  { l with g00 := a, g01 := b, g10 := c, g11 := d, g20 := e, g21 := f }

/-- Move from the source: plain offset addition without the linear part. -/
def LinearMatrix.Move (l : LinearMatrix) (x y : ℚ) : LinearMatrix :=
  (l.SetOffsetX (l.GetOffsetX + x)).SetOffsetY (l.GetOffsetY + y)

/-- Copy from the source; the model has value semantics already. -/
def LinearMatrix.Copy (l : LinearMatrix) : LinearMatrix := l

end Gofpdi

namespace Gofpdi

/-- Backslash byte, written via its code to keep source scanning simple. -/
def backslashChar : Char := Char.ofNat 92

/-- Single-quote byte. -/
def singleQuoteChar : Char := Char.ofNat 39

/-- Double-quote byte. -/
def doubleQuoteChar : Char := Char.ofNat 34

/-- Zero byte used as the initial value of the scanners' one-byte lookback. -/
def nulChar : Char := Char.ofNat 0

/-- Whitespace class of the Go regexp escape used by the operand grammars:
space, tab, newline, form feed and carriage return. -/
def isGoSpace (c : Char) : Bool :=
  c = ' ' || c = '\t' || c = '\n' || c = Char.ofNat 12 || c = '\r'

/-- Character class of the loose numeric-token patterns: digits and dot. -/
def isFloatChar (c : Char) : Bool := c.isDigit || c = '.'

/-- Character class of the trailing-adjustment pattern: digits, dot, minus. -/
def isAdjChar (c : Char) : Bool := c.isDigit || c = '.' || c = '-'

/-- Value of a digit string read in base 10. -/
def natOfDigits (l : List Char) : ℕ := l.foldl (fun n c => 10 * n + (c.toNat - 48)) 0

/-- Evaluation of the Go float-parsing primitive on the numeric tokens the
operand grammars can produce: an optional leading minus followed by digits
containing at most one dot and at least one digit; anything else fails. -/
def goParseFloat (s : List Char) : Option ℚ :=
  let signed := s.head? = some '-'
  let t := if signed then s.drop 1 else s
  if t ≠ [] ∧ t.all isFloatChar ∧ (t.filter (fun c => c = '.')).length ≤ 1 ∧
      t.any Char.isDigit then
    let ip := t.takeWhile (fun c => c ≠ '.')
    let fp := (t.dropWhile (fun c => c ≠ '.')).drop 1
    let v : ℚ := (natOfDigits ip : ℚ) + (natOfDigits fp : ℚ) / 10 ^ fp.length
    some (if signed then -v else v)
  else none

/-- Value of a strict-form number built from its pieces. -/
def strictNumVal (neg : Bool) (ds fs : List Char) : ℚ :=
  let v : ℚ := (natOfDigits ds : ℚ) + (natOfDigits fs : ℚ) / 10 ^ fs.length
  if neg then -v else v

/-- Consumes one number of the anchored operand grammars (optional minus,
digits, optional dot-digits group); the dot is left unconsumed when no digit
follows it, mirroring the optional group of the pattern. -/
def parseStrictNumber (s : List Char) : Option (ℚ × List Char) :=
  let neg := s.head? = some '-'
  let t := if neg then s.drop 1 else s
  let ds := t.takeWhile Char.isDigit
  let rest1 := t.dropWhile Char.isDigit
  if ds = [] then none
  else
    match rest1 with
    | '.' :: r2 =>
      let fs := r2.takeWhile Char.isDigit
      if fs = [] then some (strictNumVal neg ds [], rest1)
      else some (strictNumVal neg ds fs, r2.dropWhile Char.isDigit)
    | _ => some (strictNumVal neg ds [], rest1)

/-- ParseXYValues from util.go: two whitespace-separated strict numbers with
optional surrounding whitespace, anchored at both ends. -/
def ParseXYValues (input : List Char) : Except GoErr (ℚ × ℚ) :=
  let s := input.dropWhile isGoSpace
  match parseStrictNumber s with
  | none => .error (.parseFail "could not parse input into X Y values")
  | some (x, r1) =>
    match r1 with
    | c :: _ =>
      if isGoSpace c then
        match parseStrictNumber (r1.dropWhile isGoSpace) with
        | none => .error (.parseFail "could not parse input into X Y values")
        | some (y, r2) =>
          if r2.all isGoSpace then .ok (x, y)
          else .error (.parseFail "could not parse input into X Y values")
      else .error (.parseFail "could not parse input into X Y values")
    | [] => .error (.parseFail "could not parse input into X Y values")

/-- ParseSingleValue from util.go: one strict number with optional
surrounding whitespace, anchored at both ends. -/
def ParseSingleValue (input : List Char) : Except GoErr ℚ :=
  let s := input.dropWhile isGoSpace
  match parseStrictNumber s with
  | none => .error (.parseFail "could not parse input into float value")
  | some (v, r1) =>
    if r1.all isGoSpace then .ok v
    else .error (.parseFail "could not parse input into float value")

/-- Leftmost maximal tokens of the global loose-number pattern used by
GetFloatParams: an optional minus directly followed by a nonempty run of
digits and dots. -/
def findFloatTokens : List Char → List (List Char)
  | [] => []
  | c :: rest =>
    if isFloatChar c then
      (c :: rest.takeWhile isFloatChar) :: findFloatTokens (rest.dropWhile isFloatChar)
    else if c = '-' ∧ rest.head?.elim false isFloatChar then
      ('-' :: rest.takeWhile isFloatChar) :: findFloatTokens (rest.dropWhile isFloatChar)
    else findFloatTokens rest
termination_by l => l.length
decreasing_by
  all_goals simp only [List.length_cons]
  · exact Nat.lt_succ_of_le (List.dropWhile_sublist _).length_le
  · exact Nat.lt_succ_of_le (List.dropWhile_sublist _).length_le
  · exact Nat.lt_succ_self _

/-- GetFloatParams from util.go: every loose-number token is parsed in
order, failing when there is no token at all or a token does not parse. -/
def GetFloatParams (paramString : List Char) : Except GoErr (List ℚ) :=
  let toks := findFloatTokens paramString
  if toks = [] then .error (.parseFail "failed to parse float params")
  else
    toks.foldlM (fun params tok =>
      match goParseFloat tok with
      | none => .error (.parseFail "failed to parse float token")
      | some v => .ok (params ++ [v])) []

/-- Scanner state of ParseTextFields: the one-byte lookback, the capture
buffer, the pending adjustment, the literal flag, the emitted runs and the
reversed prefix of bytes already consumed (for the trailing-number match). -/
structure PTFState where
  lastByte : Char
  buff : List Char
  adjust : ℚ
  insideParen : Bool
  runs : List ShowChars
  prefixRev : List Char

/-- One byte of the ParseTextFields scan: an unescaped open parenthesis
latches the trailing number before it (defaulting to 1) and starts capture,
an unescaped close parenthesis emits the buffer when nonempty and zeroes the
adjustment, an unescaped backslash is consumed silently, and other bytes are
captured only inside a literal. -/
def parseTextFieldsStep (st : PTFState) (b : Char) : PTFState :=
  let lastByte := st.lastByte
  let st1 :=
    if b = '(' ∧ lastByte ≠ backslashChar then
      let m := (st.prefixRev.takeWhile isAdjChar).reverse
      let adjust := if m = [] then 1 else (goParseFloat m).getD 1
      { st with insideParen := true, buff := [], adjust := adjust }
    else if b = ')' ∧ lastByte ≠ backslashChar then
      if st.buff ≠ [] then
        { st with insideParen := false,
                  runs := st.runs ++ [⟨st.buff, st.adjust⟩], adjust := 0 }
      else { st with insideParen := false }
    else if b = backslashChar ∧ lastByte ≠ backslashChar then st
    else if st.insideParen then { st with buff := st.buff ++ [b] }
    else st
  { st1 with lastByte := b, prefixRev := b :: st.prefixRev }

/-- ParseTextFields from util.go: runs the scan over the operand string. -/
def ParseTextFields (opString : List Char) : List ShowChars :=
  (opString.foldl parseTextFieldsStep ⟨nulChar, [], 0, false, [], []⟩).runs

end Gofpdi

namespace Gofpdi

/-- Association-list model of a Go map: lookup of the first binding. -/
def alistLookup {α β : Type} [DecidableEq α] : List (α × β) → α → Option β
  | [], _ => none
  | (k, v) :: rest, key => if key = k then some v else alistLookup rest key

/-- Association-list model of Go map assignment: replace the binding when
the key is present, append it otherwise. -/
def alistInsert {α β : Type} [DecidableEq α] : List (α × β) → α → β → List (α × β)
  | [], key, v => [(key, v)]
  | (k, w) :: rest, key, v =>
    if key = k then (k, v) :: rest else (k, w) :: alistInsert rest key v

/-- PageRender from the source: the mutable interpreter context of one
page.  Fields not set by NewPageRender start at their Go zero values. -/
structure PageRender where
  PageNumber : ℤ
  LineMatrix : LinearMatrix
  TextMatrix : LinearMatrix
  TransformationMatrix : LinearMatrix
  LineItems : List ShowOperation
  Fonts : List (String × FontDefinition)
  Leading : ℚ
  CharSpacing : ℚ
  WordSpacing : ℚ
  Scale : ℚ
  FontSize : ℚ
  RenderMode : ℤ
  Rise : ℚ
  Knockout : ℚ
  FontName : String
  deriving DecidableEq

/-- NewPageRender from the source: default matrices, given page number and
font table, all other fields at their Go zero values. -/
def NewPageRender (pageNumber : ℤ) (fonts : List (String × FontDefinition)) : PageRender :=
  { PageNumber := pageNumber, LineMatrix := NewDefaultMatrix,
    TextMatrix := NewDefaultMatrix, TransformationMatrix := NewDefaultMatrix,
    LineItems := [], Fonts := fonts, Leading := 0, CharSpacing := 0,
    WordSpacing := 0, Scale := 0, FontSize := 0, RenderMode := 0, Rise := 0,
    Knockout := 0, FontName := "" }

/-- addLineItem from the source: resolves the current font, snapshots the
render state into a ShowOperation, computes its width, advances the text
matrix by that width and appends the operation. -/
def PageRender.addLineItem (r : PageRender) (chars : List ShowChars) : Except GoErr PageRender :=
  match alistLookup r.Fonts r.FontName with
  | none => .error (.fontNotFound r.FontName)
  | some font =>
    let line : ShowOperation :=
      { chars := chars, PageNumber := r.PageNumber,
        StartX := r.TextMatrix.GetOffsetX, StartY := r.TextMatrix.GetOffsetY,
        FontSize := r.FontSize, Font := font, CharSpacing := r.CharSpacing,
        WordSpacing := r.WordSpacing, Leading := r.Leading, Scale := r.Scale,
        RenderMode := r.RenderMode, Rise := r.Rise, Knockout := r.Knockout }
    match line.GetWidth with
    | .error e => .error e
    | .ok lineWidth =>
      .ok { r with TextMatrix := r.TextMatrix.Translate lineWidth 0,
                   LineItems := r.LineItems ++ [line] }

/-- moveToStartOfNextLine from the source (Td, TD and T*): with an empty
operand the line matrix moves down by the leading, otherwise by the parsed
pair (optionally setting the leading); the text matrix becomes a copy of
the line matrix in both cases. -/
def PageRender.moveToStartOfNextLine (r : PageRender) (opString : List Char)
    (setLeading : Bool) : Except GoErr PageRender :=
  if opString = [] then
    let lm := r.LineMatrix.SetOffsetY (r.LineMatrix.GetOffsetY - r.Leading)
    .ok { r with LineMatrix := lm, TextMatrix := lm.Copy }
  else
    match ParseXYValues opString with
    | .error e => .error e
    | .ok (x, y) =>
      let r := if setLeading then { r with Leading := y } else r
      let lm := r.LineMatrix.Move x y
      .ok { r with LineMatrix := lm, TextMatrix := lm.Copy }

/-- setTextLeading from the source (TL). -/
def PageRender.setTextLeading (r : PageRender) (opString : List Char) : Except GoErr PageRender :=
  match ParseSingleValue opString with
  | .error e => .error e
  | .ok value => .ok { r with Leading := value }

/-- setWordSpacing from the source (Tw). -/
def PageRender.setWordSpacing (r : PageRender) (opString : List Char) : Except GoErr PageRender :=
  match ParseSingleValue opString with
  | .error e => .error e
  | .ok value => .ok { r with WordSpacing := value }

/-- setCharSpacing from the source (Tc). -/
def PageRender.setCharSpacing (r : PageRender) (opString : List Char) : Except GoErr PageRender :=
  match ParseSingleValue opString with
  | .error e => .error e
  | .ok value => .ok { r with CharSpacing := value }

/-- setScale from the source (Tz): stores the parsed value divided by 100. -/
def PageRender.setScale (r : PageRender) (opString : List Char) : Except GoErr PageRender :=
  match ParseSingleValue opString with
  | .error e => .error e
  | .ok value => .ok { r with Scale := value / 100 }

/-- setMatrix from the source (Tm): six parsed numbers set both the text
and the line matrix. -/
def PageRender.setMatrix (r : PageRender) (opString : List Char) : Except GoErr PageRender :=
  match GetFloatParams opString with
  | .error e => .error e
  | .ok params =>
    match params with
    | [a, b, c, d, e, f] =>
      .ok { r with TextMatrix := r.TextMatrix.Set a b c d e f,
                   LineMatrix := r.LineMatrix.Set a b c d e f }
    | _ => .error (.parseFail "received wrong number of params expecting 6")

/-- Font-operand grammar of setTextFont: optional whitespace, a nonempty
run of non-whitespace bytes (the name), whitespace, a nonempty run of
digits and dots (the size), optional trailing whitespace. -/
def parseFontOperand (s : List Char) : Option (List Char × List Char) :=
  let t := s.dropWhile isGoSpace
  let name := t.takeWhile (fun c => ¬ isGoSpace c)
  let r1 := t.dropWhile (fun c => ¬ isGoSpace c)
  if name = [] then none
  else
    match r1 with
    | c :: _ =>
      if isGoSpace c then
        let r2 := r1.dropWhile isGoSpace
        let size := r2.takeWhile isFloatChar
        let r3 := r2.dropWhile isFloatChar
        if size = [] then none
        else if r3.all isGoSpace then some (name, size) else none
      else none
    | [] => none

/-- setTextFont from the source (Tf): parses name and size; the font name
is stored before the size is parsed (the Go code assigns the name first, so
a size-parse failure leaves it assigned — unobservable here because a block
aborts on the error). -/
def PageRender.setTextFont (r : PageRender) (opString : List Char) : Except GoErr PageRender :=
  match parseFontOperand opString with
  | none => .error (.parseFail "failed to parse font name and size")
  | some (name, size) =>
    let r := { r with FontName := String.mk name }
    match goParseFloat size with
    | none => .error (.parseFail "failed to parse font size")
    | some v => .ok { r with FontSize := v }

/-- addText from the source (Tj, TJ and the text part of the shorthands). -/
def PageRender.addText (r : PageRender) (opString : List Char) : Except GoErr PageRender :=
  r.addLineItem (ParseTextFields opString)

/-- Text part of the quote-shorthand operand grammar: after the two
numbers, greedy whitespace skipping backtracks just enough to leave a
nonempty newline-free tail. -/
def quoteTextPart (rest : List Char) : Option (List Char) :=
  let stripped := rest.dropWhile isGoSpace
  if stripped ≠ [] then
    if stripped.contains '\n' then none else some stripped
  else
    match rest.getLast? with
    | some c => if c = '\n' then none else some [c]
    | none => none

/-- Greedy-with-backtracking match of the second number of the
quote-shorthand grammar: the longest token prefix that still leaves a
matching text part wins. -/
def quoteSecondNumber (w run rest : List Char) :
    ℕ → Option (List Char × List Char × List Char)
  | 0 => none
  | k + 1 =>
    let t2 := run.take (k + 1)
    let after := run.drop (k + 1) ++ rest
    match quoteTextPart after with
    | some text => some (w, t2, text)
    | none => quoteSecondNumber w run rest k

/-- Operand grammar of the double-quote operator: word-spacing number,
whitespace, char-spacing number, optional whitespace, text. -/
def parseQuoteOperand (s : List Char) : Option (List Char × List Char × List Char) :=
  let t := s.dropWhile isGoSpace
  let w := t.takeWhile isAdjChar
  let r1 := t.dropWhile isAdjChar
  if w = [] then none
  else
    match r1 with
    | c :: _ =>
      if isGoSpace c then
        let r2 := r1.dropWhile isGoSpace
        let run := r2.takeWhile isAdjChar
        let rest := r2.dropWhile isAdjChar
        if run = [] then none
        else quoteSecondNumber w run rest run.length
      else none
    | [] => none

/-- moveToStartOfNextLineAndAddText from the source (the double-quote
operator): line advance by the leading, then word spacing, char spacing and
the text in sequence. -/
def PageRender.moveToStartOfNextLineAndAddText (r : PageRender)
    (opString : List Char) : Except GoErr PageRender :=
  match parseQuoteOperand opString with
  | none => .error (.parseFail "failed to parse operand string for quote operator")
  | some (w, cs, text) =>
    let lm := r.LineMatrix.SetOffsetY (r.LineMatrix.GetOffsetY - r.Leading)
    let r := { r with LineMatrix := lm, TextMatrix := lm.Copy }
    match r.setWordSpacing w with
    | .error e => .error e
    | .ok r =>
      match r.setCharSpacing cs with
      | .error e => .error e
      | .ok r => r.addText text

/-- Operator dispatch of AddTextBlock: the switch over the recognized
mnemonics; `buff` is the full accumulated builder carried into the
unrecognized-operator error. -/
def PageRender.dispatchOperator (r : PageRender) (op operandString buff : List Char) :
    Except GoErr PageRender :=
  if op = ['T', 'd'] then r.moveToStartOfNextLine operandString false
  else if op = ['T', 'D'] then r.moveToStartOfNextLine operandString true
  else if op = ['T', 'm'] then r.setMatrix operandString
  else if op = ['T', 'j'] ∨ op = ['T', 'J'] then r.addText operandString
  else if op = ['T', '*'] then r.moveToStartOfNextLine [] false
  else if op = ['T', 'L'] then r.setTextLeading operandString
  else if op = ['T', 'c'] then r.setCharSpacing operandString
  else if op = ['T', 'w'] then r.setWordSpacing operandString
  else if op = ['T', 'z'] then r.setScale operandString
  else if op = ['T', 'f'] then r.setTextFont operandString
  else if op = [singleQuoteChar] then
    match r.moveToStartOfNextLine [] false with
    | .ok r1 => r1.addText operandString
    | .error _ => r.addText operandString
  else if op = [doubleQuoteChar] then r.moveToStartOfNextLineAndAddText operandString
  else if op = ['T', 'r'] ∨ op = ['T', 's'] then .ok r
  else .error (.unrecognizedOperator op buff)

/-- Scanner state of AddTextBlock: the one-byte lookback (the Go variable
`b` of the previous iteration), the operator/operand builder and the
string-literal flag. -/
structure ScanState where
  prevB : Char
  opBuilder : List Char
  insideParen : Bool
  deriving DecidableEq

/-- One byte of the AddTextBlock scan.  Inside a literal only the unescaped
close parenthesis changes anything; outside, an unescaped open parenthesis
enters a literal, a byte after a capital T dispatches the two-byte operator
taken from the end of the builder, and a quote byte dispatches the one-byte
shorthand; otherwise the byte is just accumulated. -/
def scanStep (acc : PageRender × ScanState) (c : Char) :
    Except GoErr (PageRender × ScanState) :=
  let r := acc.1
  let st := acc.2
  let lastByte := st.prevB
  let builder := st.opBuilder ++ [c]
  if st.insideParen then
    if c = ')' ∧ lastByte ≠ backslashChar then .ok (r, ⟨c, builder, false⟩)
    else .ok (r, ⟨c, builder, true⟩)
  else if c = '(' ∧ lastByte ≠ backslashChar then .ok (r, ⟨c, builder, true⟩)
  else if lastByte = 'T' then
    let operator := builder.drop (builder.length - 2)
    let operandString := builder.take (builder.length - 2)
    match r.dispatchOperator operator operandString builder with
    | .error e => .error e
    | .ok r2 => .ok (r2, ⟨c, [], false⟩)
  else if c = singleQuoteChar ∨ c = doubleQuoteChar then
    let operator := builder.drop (builder.length - 1)
    let operandString := builder.take (builder.length - 1)
    match r.dispatchOperator operator operandString builder with
    | .error e => .error e
    | .ok r2 => .ok (r2, ⟨c, [], false⟩)
  else .ok (r, ⟨c, builder, false⟩)

/-- Byte-by-byte scan of a block body, aborting at the first error exactly
like the Go loop. -/
def scanBlock (acc : PageRender × ScanState) :
    List Char → Except GoErr (PageRender × ScanState)
  | [] => .ok acc
  | c :: rest =>
    match scanStep acc c with
    | .error e => .error e
    | .ok acc2 => scanBlock acc2 rest

/-- Substring test used for the nested-marker check, as Go strings.Contains
with a nonempty pattern. -/
def containsSeq (pat : List Char) : List Char → Bool
  | [] => false
  | c :: rest => pat.isPrefixOf (c :: rest) || containsSeq pat rest

/-- AddTextBlock from the source: the block must start with BT and end with
ET; the raw contents must not contain the byte sequences BT or ET anywhere
(the check does not respect string literals); then the body is scanned. -/
def PageRender.AddTextBlock (r : PageRender) (textBlock : List Char) : Except GoErr PageRender :=
  if ['B', 'T'].isPrefixOf textBlock ∧ ['E', 'T'].isSuffixOf textBlock ∧
      4 ≤ textBlock.length then
    let contents := (textBlock.drop 2).take (textBlock.length - 4)
    if containsSeq ['B', 'T'] contents ∨ containsSeq ['E', 'T'] contents then
      .error .nestedBlock
    else
      match scanBlock (r, ⟨nulChar, [], false⟩) contents with
      | .error e => .error e
      | .ok (r2, _) => .ok r2
  else .error .invalidBlock

end Gofpdi

namespace Gofpdi

/-- Search increment of the column-collision search (render.go constant). -/
def rowInsertionPrecision : ℚ := 1 / 10000000

/-- Maximum search radius of the column-collision search. -/
def maxRowInsertVariance : ℚ := 50

/-- Lower placement boundary of the column-collision search. -/
def minRowInsertBoundary : ℚ := 1

/-- Upper placement boundary of the column-collision search. -/
def maxRowInsertBoundary : ℚ := LetterPageWidth

/-- A row of the two-dimensional index: X key to show operation. -/
abbrev RowMap := List (ℚ × ShowOperation)

/-- The two-dimensional index: row key to row. -/
abbrev ShowOpsIndex := List (ℤ × RowMap)

/-- Loop of InsertShowOpIntoRow: the offset after `k` increments is
`k * precision` (the accumulated Go float sum `f += precision` is modelled
as this exact product); the upper probe is tried before the lower one, each
probe must be free and inside its boundary, and the loop ends when the
offset exceeds the radius. -/
def insertSearch (targetMap : RowMap) (index : ℚ) (k : ℕ) : Option ℚ :=
  if h : (k : ℚ) * rowInsertionPrecision ≤ maxRowInsertVariance then
    if alistLookup targetMap (index + k * rowInsertionPrecision) = none ∧
        index + k * rowInsertionPrecision ≤ maxRowInsertBoundary then
      some (index + k * rowInsertionPrecision)
    else if alistLookup targetMap (index - k * rowInsertionPrecision) = none ∧
        minRowInsertBoundary ≤ index - k * rowInsertionPrecision then
      some (index - k * rowInsertionPrecision)
    else insertSearch targetMap index (k + 1)
  else none
termination_by 500000001 - k
decreasing_by
  simp only [rowInsertionPrecision, maxRowInsertVariance] at h
  have hk : (k : ℚ) ≤ 500000000 := by
    have hs : (k : ℚ) * (1 / 10000000) ≤ 50 := h
    linarith
  have hk2 : k ≤ 500000000 := by exact_mod_cast hk
  omega

/-- InsertShowOpIntoRow from the source.  Faithfully: when the search finds
a free offset the object is stored at the original `desiredIndex` key (the
Go code writes `targetMap[index] = object`, not at `index+f`), while the
found offset `index±f` is what is returned; when the search is exhausted
nothing is stored and an error is returned. -/
def InsertShowOpIntoRow (object : ShowOperation) (desiredIndex : ℚ)
    (targetMap : RowMap) : RowMap × Except GoErr ℚ :=
  match insertSearch targetMap desiredIndex 0 with
  | some placement => (alistInsert targetMap desiredIndex object, .ok placement)
  | none => (targetMap, .error .placementFail)

/-- Go conversion `int(q)` on a float: truncation toward zero. -/
def goIntTrunc (q : ℚ) : ℤ := q.num.tdiv (q.den : ℤ)

/-- First phase of GetIndexedShowOps: the fold over the page's show
operations building the row/column index.  Faithfully: the row key is
`int(StartY / 10)`; on a collision the insertion result is assigned to the
page error — overwriting whatever error an earlier insertion produced —
and the fresh-row branch leaves the error untouched. -/
def buildShowOpsIndex (r : PageRender) : ShowOpsIndex × Option GoErr :=
  r.LineItems.foldl
    (fun (acc : ShowOpsIndex × Option GoErr) showOp =>
      let m := acc.1
      let rowNumber := goIntTrunc (showOp.StartY / 10)
      let mapKeyX := showOp.StartX
      match alistLookup m rowNumber with
      | some row =>
        let res := InsertShowOpIntoRow showOp mapKeyX row
        (alistInsert m rowNumber res.1,
          match res.2 with
          | .ok _ => none
          | .error e => some e)
      | none => (alistInsert m rowNumber [(mapKeyX, showOp)], acc.2))
    ([], none)

/-- Descending sort of the collected row keys (sort.Reverse of
sort.IntSlice in the source). -/
def sortDescInt (l : List ℤ) : List ℤ := l.mergeSort (fun a b => decide (b ≤ a))

/-- Ascending sort of the collected X keys (sort.Float64s in the source). -/
def sortAscRat (l : List ℚ) : List ℚ := l.mergeSort (fun a b => decide (a ≤ b))

/-- Second phase of GetIndexedShowOps: row keys sorted descending, each
row's X keys sorted ascending, visible text concatenated with a newline
after every row. -/
def renderIndexText (showOps : ShowOpsIndex) : List Char :=
  let indicesY := sortDescInt (showOps.map Prod.fst)
  indicesY.foldl (fun renderBuffer posY =>
    let row := (alistLookup showOps posY).getD []
    let indicesX := sortAscRat (row.map Prod.fst)
    let renderBuffer := indicesX.foldl (fun buf posX =>
      match alistLookup row posX with
      | some op => buf ++ op.GetText false
      | none => buf) renderBuffer
    renderBuffer ++ ['\n']) []

/-- GetIndexedShowOps from the source: builds the index, then the sorted
plain text, returning both together with the (last) page error. -/
def PageRender.GetIndexedShowOps (r : PageRender) :
    ShowOpsIndex × List Char × Option GoErr :=
  let build := buildShowOpsIndex r
  (build.1, renderIndexText build.1, build.2)

end Gofpdi

namespace Gofpdi

/-- Sample font used by concrete witnesses: covers the printable band
32..126 with uniform width 500. -/
def sampleFont : FontDefinition :=
  { Name := "F1", Base := "Helvetica", FontType := 0, FirstChar := 32,
    LastChar := 126, Widths := List.replicate 95 500, Descriptor := 0 }

/-- Font whose width table is shorter than its declared character range,
used to exhibit the unchecked table access. -/
def shortFont : FontDefinition :=
  { Name := "Short", Base := "Helvetica", FontType := 0, FirstChar := 0,
    LastChar := 200, Widths := [600], Descriptor := 0 }

/-- Show operation at X=5, Y=0 carrying the text A, for the collision
scenarios. -/
def sampleOpA : ShowOperation :=
  { chars := [⟨['A'], 1⟩], PageNumber := 1, StartX := 5, StartY := 0,
    FontSize := 12, Font := sampleFont, CharSpacing := 0, WordSpacing := 0,
    Leading := 0, Scale := 0, RenderMode := 0, Rise := 0, Knockout := 0 }

/-- Show operation with the same desired X=5, Y=0 carrying the text B. -/
def sampleOpB : ShowOperation :=
  { sampleOpA with chars := [⟨['B'], 1⟩] }

/-- Predicate telling an ok result from an error result. -/
def exceptIsOk {ε α : Type} : Except ε α → Bool
  | .ok _ => true
  | .error _ => false

/-- Font table binding the name /F1 to the sample font. -/
def sampleFonts : List (String × FontDefinition) := [("/F1", sampleFont)]

/-- Runs a sequence of text blocks on a fresh page-one render state. -/
def runBlocks (fonts : List (String × FontDefinition)) (blocks : List (List Char)) :
    Except GoErr PageRender :=
  blocks.foldlM (fun r b => r.AddTextBlock b) (NewPageRender 1 fonts)

/-- Block containing the unrecognized operator mnemonic q outside any
string literal, followed by a show operation. -/
def unknownOpBlock : List Char := "BT /F1 12 Tf q (Hi) Tj ET".toList

/-- The spec-example block: a move, a font selection and one show. -/
def hiBlock : List Char := "BT 10 20 Td /F1 12 Tf (Hi) Tj ET".toList

/-- Block whose parenthesized literal contains the byte sequence ET (inside
the word BUDGET). -/
def budgetBlock : List Char := "BT (BUDGET) Tj ET".toList

/-- Page state whose item list holds two operations with the same desired
X key, the second of which collides on insertion. -/
def samplePageDrop : PageRender :=
  { NewPageRender 1 sampleFonts with LineItems := [sampleOpA, sampleOpB] }

/-- Show operation at Y=100, X=5 with text first. -/
def sampleOpRow1 : ShowOperation :=
  { sampleOpA with StartX := 5, StartY := 100, chars := [⟨"first".toList, 1⟩] }

/-- Show operation at Y=104, X=50 with text second. -/
def sampleOpRow2 : ShowOperation :=
  { sampleOpA with StartX := 50, StartY := 104, chars := [⟨"second".toList, 1⟩] }

/-- Page state holding the two same-visual-row operations. -/
def samplePageRows : PageRender :=
  { NewPageRender 1 sampleFonts with LineItems := [sampleOpRow1, sampleOpRow2] }

/-- Show operation with a negative start Y. -/
def sampleOpNeg : ShowOperation :=
  { sampleOpA with StartX := 5, StartY := -5, chars := [⟨"neg".toList, 1⟩] }

/-- Page state holding only the negative-Y operation. -/
def samplePageNeg : PageRender :=
  { NewPageRender 1 sampleFonts with LineItems := [sampleOpNeg] }

/-- Page state after running the spec-example block on a fresh page (the
error fallback is never taken, as the theorems show). -/
def hiFinal : PageRender :=
  match (NewPageRender 1 sampleFonts).AddTextBlock hiBlock with
  | .ok r => r
  | .error _ => NewPageRender 1 sampleFonts

/-- Parsed X operand of the Td of the example block. -/
def hiX : ℚ := strictNumVal false ['1', '0'] []

/-- Parsed Y operand of the Td of the example block. -/
def hiY : ℚ := strictNumVal false ['2', '0'] []

/-- Parsed font size of the Tf of the example block. -/
def hiSize : ℚ := (natOfDigits ['1', '2'] : ℚ) + (natOfDigits [] : ℚ) / 10 ^ (0 : ℕ)

/-- Width contribution of one glyph of the example block, as the glyph
formula leaves it: the adjustment 1, char spacing 0 and the page's scale 0
(so the value is 0). -/
def hiGlyphW : ℚ := ((((500 : ℤ) : ℚ) - 1 / 1000) * hiSize + 0) * 0

/-- Page state with two operations on distinct visual rows (Y=0 and
Y=100), exercising the two-row index. -/
def samplePageTwo : PageRender :=
  { NewPageRender 1 sampleFonts with LineItems := [sampleOpA, sampleOpRow1] }

/-- The show operation produced by the example block's Tj, with each field
exactly as the interpreter leaves it. -/
def hiOp : ShowOperation :=
  { chars := [⟨['H', 'i'], 1⟩], PageNumber := 1, StartX := 0 + hiX, StartY := 0 + hiY,
    FontSize := hiSize, Font := sampleFont, CharSpacing := 0, WordSpacing := 0,
    Leading := 0, Scale := 0, RenderMode := 0, Rise := 0, Knockout := 0 }

end Gofpdi

namespace Gofpdi

/-- C2: for a character inside the declared range whose width-table entry
exists, CalculateGlyphWidth returns exactly
`((Widths[c - FirstChar] - adj/1000) * fontSize + s) * horizScale` with
`s = wordSpacing` for the space byte and `charSpacing` otherwise (the result
being a function of the six inputs alone); any character outside the range
fails with the range error and never with a different failure kind. -/
theorem calculateGlyphWidth_spec (f : FontDefinition) (c : ℕ)
    (adj fontSize charSpacing wordSpacing horizScale : ℚ) :
    (∀ (hlo : f.FirstChar ≤ c) (hhi : c ≤ f.LastChar)
        (hcov : c - f.FirstChar < f.Widths.length),
      f.CalculateGlyphWidth c adj fontSize charSpacing wordSpacing horizScale =
        .ok (((((f.Widths.get ⟨c - f.FirstChar, hcov⟩ : ℤ) : ℚ) - adj / 1000) * fontSize +
              (if c = 32 then wordSpacing else charSpacing)) * horizScale)) ∧
    ((c < f.FirstChar ∨ f.LastChar < c) →
      f.CalculateGlyphWidth c adj fontSize charSpacing wordSpacing horizScale =
        .error (.glyphRange c f.Name)) := by
  constructor
  · intro hlo hhi hcov
    unfold FontDefinition.CalculateGlyphWidth
    rw [if_neg (by omega), List.get?_eq_get hcov]
    by_cases h32 : c = 32 <;> simp [h32]
  · intro h
    unfold FontDefinition.CalculateGlyphWidth
    rw [if_pos (by omega)]

/-- Witness for C2 at concrete inputs: character 72 of the sample font is in
range and covered, giving the formula value; character 10 is out of range
and yields the range error. -/
theorem calculateGlyphWidth_spec_witness :
    sampleFont.CalculateGlyphWidth 72 1 12 2 3 4 =
      .ok ((((500 : ℚ) - 1 / 1000) * 12 + 2) * 4) ∧
    sampleFont.CalculateGlyphWidth 10 1 12 2 3 4 =
      .error (.glyphRange 10 "F1") := by
  refine ⟨?_, ?_⟩
  · have h := (calculateGlyphWidth_spec sampleFont 72 1 12 2 3 4).1
      (by decide) (by decide) (by decide)
    simpa [sampleFont] using h
  · exact (calculateGlyphWidth_spec sampleFont 10 1 12 2 3 4).2 (by decide)

/-- C10: inside the declared range the width table is accessed without a
length check: when the table does not cover the character the access is out
of bounds (a Go runtime panic, modelled `indexPanic`); the function is total
and panic-free on the range only under the additional precondition
`c - FirstChar < Widths.length`. -/
theorem calculateGlyphWidth_indexPanic (f : FontDefinition) (c : ℕ)
    (adj fontSize charSpacing wordSpacing horizScale : ℚ)
    (hlo : f.FirstChar ≤ c) (hhi : c ≤ f.LastChar) :
    (f.Widths.length ≤ c - f.FirstChar →
      f.CalculateGlyphWidth c adj fontSize charSpacing wordSpacing horizScale =
        .error .indexPanic) ∧
    (c - f.FirstChar < f.Widths.length →
      ∃ q, f.CalculateGlyphWidth c adj fontSize charSpacing wordSpacing horizScale = .ok q) := by
  constructor
  · intro hlen
    unfold FontDefinition.CalculateGlyphWidth
    rw [if_neg (by omega), List.get?_eq_none.mpr hlen]
  · intro hcov
    exact ⟨_, (calculateGlyphWidth_spec f c adj fontSize charSpacing wordSpacing horizScale).1
      hlo hhi hcov⟩

/-- Witness for C10: character 5 is inside shortFont's declared range 0..200
but its one-entry width table stops short, so the call panics. -/
theorem calculateGlyphWidth_indexPanic_witness :
    shortFont.CalculateGlyphWidth 5 0 12 0 0 1 = .error .indexPanic := by
  exact (calculateGlyphWidth_indexPanic shortFont 5 0 12 0 0 1
    (by decide) (by decide)).1 (by decide)

end Gofpdi

namespace Gofpdi

/-- Unfolding lemma: the search succeeds on the upper probe. -/
theorem insertSearch_upper {m : RowMap} {i : ℚ} {k : ℕ}
    (hk : (k : ℚ) * rowInsertionPrecision ≤ maxRowInsertVariance)
    (hfree : alistLookup m (i + k * rowInsertionPrecision) = none)
    (hbound : i + k * rowInsertionPrecision ≤ maxRowInsertBoundary) :
    insertSearch m i k = some (i + k * rowInsertionPrecision) := by
  rw [insertSearch, dif_pos hk, if_pos ⟨hfree, hbound⟩]

/-- Unfolding lemma: the upper probe fails and the lower one succeeds. -/
theorem insertSearch_lower {m : RowMap} {i : ℚ} {k : ℕ}
    (hk : (k : ℚ) * rowInsertionPrecision ≤ maxRowInsertVariance)
    (hupper : ¬(alistLookup m (i + k * rowInsertionPrecision) = none ∧
      i + k * rowInsertionPrecision ≤ maxRowInsertBoundary))
    (hfree : alistLookup m (i - k * rowInsertionPrecision) = none)
    (hbound : minRowInsertBoundary ≤ i - k * rowInsertionPrecision) :
    insertSearch m i k = some (i - k * rowInsertionPrecision) := by
  rw [insertSearch, dif_pos hk, if_neg hupper, if_pos ⟨hfree, hbound⟩]

/-- Unfolding lemma: both probes fail and the search moves on. -/
theorem insertSearch_continue {m : RowMap} {i : ℚ} {k : ℕ}
    (hk : (k : ℚ) * rowInsertionPrecision ≤ maxRowInsertVariance)
    (hupper : ¬(alistLookup m (i + k * rowInsertionPrecision) = none ∧
      i + k * rowInsertionPrecision ≤ maxRowInsertBoundary))
    (hlower : ¬(alistLookup m (i - k * rowInsertionPrecision) = none ∧
      minRowInsertBoundary ≤ i - k * rowInsertionPrecision)) :
    insertSearch m i k = insertSearch m i (k + 1) := by
  rw [insertSearch, dif_pos hk, if_neg hupper, if_neg hlower]

/-- Evaluation helper shared by the collision scenarios: inserting the B
operation at the occupied key 5 stores it at key 5 and reports placement
5 + precision. -/
theorem insertSampleB_eq :
    InsertShowOpIntoRow sampleOpB 5 [(5, sampleOpA)] =
      ([(5, sampleOpB)], .ok (5 + rowInsertionPrecision)) := by
  have h0 : insertSearch [(5, sampleOpA)] 5 0 = insertSearch [(5, sampleOpA)] 5 1 := by
    apply insertSearch_continue
    · norm_num [rowInsertionPrecision, maxRowInsertVariance]
    · intro h
      norm_num [alistLookup] at h
      exact Option.some_ne_none _ h.1
    · intro h
      norm_num [alistLookup] at h
      exact Option.some_ne_none _ h.1
  have h1 : insertSearch [(5, sampleOpA)] 5 1 = some (5 + 1 * rowInsertionPrecision) := by
    apply insertSearch_upper
    · norm_num [rowInsertionPrecision, maxRowInsertVariance]
    · norm_num [alistLookup, rowInsertionPrecision]
    · norm_num [rowInsertionPrecision, maxRowInsertBoundary, LetterPageWidth]
  rw [InsertShowOpIntoRow, h0, h1]
  norm_num [alistInsert]

/-- C1 evaluation: inserting a second operation whose desired X key 5 is
already occupied stores it at the original key 5 — overwriting the first
operation — while returning the perturbed placement 5 + precision, a key
that is not even present in the resulting row. -/
theorem insertShowOpIntoRow_overwrites :
    InsertShowOpIntoRow sampleOpB 5 [(5, sampleOpA)] =
      ([(5, sampleOpB)], .ok (5 + rowInsertionPrecision)) ∧
    alistLookup [(5, sampleOpB)] 5 = some sampleOpB ∧
    alistLookup [(5, sampleOpB)] (5 + rowInsertionPrecision) = none := by
  refine ⟨insertSampleB_eq, ?_, ?_⟩
  · norm_num [alistLookup]
  · norm_num [alistLookup, rowInsertionPrecision]

end Gofpdi

namespace Gofpdi

/-- C5 counterexample evaluation: the block BT (BUDGET) Tj ET is rejected
by AddTextBlock as a structural violation, because the nested-marker check
scans the raw contents — including string literals — and the literal
BUDGET contains the byte sequence ET. -/
theorem addTextBlock_budget_rejected :
    (NewPageRender 1 sampleFonts).AddTextBlock budgetBlock = .error .nestedBlock := rfl

/-- C3 counterexample evaluation: a block carrying the unrecognized
operator mnemonic q outside any string literal is accepted: the byte is
silently absorbed into the operand of the following Tj. -/
theorem addTextBlock_absorbs_unrecognized :
    exceptIsOk ((NewPageRender 1 sampleFonts).AddTextBlock unknownOpBlock) = true := rfl

end Gofpdi

namespace Gofpdi

/-- Go float-to-int conversion truncates toward zero: floor for nonnegative
values, ceiling for negative ones. -/
theorem goIntTrunc_eq (q : ℚ) : goIntTrunc q = if 0 ≤ q then ⌊q⌋ else ⌈q⌉ := by
  unfold goIntTrunc
  by_cases h : 0 ≤ q
  · rw [if_pos h, Rat.floor_def]
    exact Int.tdiv_eq_ediv (Rat.num_nonneg.mpr h) (by positivity)
  · rw [if_neg h]
    have hq : (0 : ℚ) ≤ -q := by
      have := lt_of_not_le h
      linarith
    have h1 : (-q).num.tdiv ((-q).den : ℤ) = ⌊-q⌋ := by
      rw [Rat.floor_def]
      exact Int.tdiv_eq_ediv (Rat.num_nonneg.mpr hq) (by positivity)
    rw [Rat.neg_num, Rat.neg_den, Int.neg_tdiv] at h1
    have h2 : ⌊-q⌋ = -⌈q⌉ := Int.floor_neg
    omega

/-- The ascending sort is a permutation of its input. -/
theorem sortAscRat_perm (l : List ℚ) : (sortAscRat l).Perm l :=
  List.mergeSort_perm l _

/-- The ascending sort is sorted. -/
theorem sortAscRat_sorted (l : List ℚ) : (sortAscRat l).Sorted (· ≤ ·) := by
  have hs := @List.sorted_mergeSort ℚ (fun a b : ℚ => decide (a ≤ b))
    (by intro a b c h1 h2; simp only [decide_eq_true_eq] at *; exact le_trans h1 h2)
    (by intro a b; simp only [Bool.or_eq_true, decide_eq_true_eq]; exact le_total a b) l
  exact hs.imp (fun h => of_decide_eq_true h)

/-- Sorting a permuted key list gives the same result. -/
theorem sortAscRat_eq_of_perm {l l' : List ℚ} (h : l.Perm l') :
    sortAscRat l = sortAscRat l' :=
  List.eq_of_perm_of_sorted ((sortAscRat_perm l).trans (h.trans (sortAscRat_perm l').symm))
    (sortAscRat_sorted l) (sortAscRat_sorted l')

/-- Sorting an already ascending list changes nothing. -/
theorem sortAscRat_eq_of_sorted {l : List ℚ} (h : l.Sorted (· ≤ ·)) :
    sortAscRat l = l :=
  List.eq_of_perm_of_sorted (sortAscRat_perm l) (sortAscRat_sorted l) h

/-- The descending sort is a permutation of its input. -/
theorem sortDescInt_perm (l : List ℤ) : (sortDescInt l).Perm l :=
  List.mergeSort_perm l _

/-- The descending sort is sorted for the reversed order. -/
theorem sortDescInt_sorted (l : List ℤ) : (sortDescInt l).Sorted (fun a b => b ≤ a) := by
  have hs := @List.sorted_mergeSort ℤ (fun a b : ℤ => decide (b ≤ a))
    (by intro a b c h1 h2; simp only [decide_eq_true_eq] at *; exact le_trans h2 h1)
    (by intro a b; simp only [Bool.or_eq_true, decide_eq_true_eq]; exact le_total b a) l
  exact hs.imp (fun h => of_decide_eq_true h)

/-- Sorting a permuted key list gives the same result (descending case). -/
theorem sortDescInt_eq_of_perm {l l' : List ℤ} (h : l.Perm l') :
    sortDescInt l = sortDescInt l' := by
  haveI : IsAntisymm ℤ (fun a b => b ≤ a) := ⟨fun a b h1 h2 => le_antisymm h2 h1⟩
  exact List.eq_of_perm_of_sorted
    ((sortDescInt_perm l).trans (h.trans (sortDescInt_perm l').symm))
    (sortDescInt_sorted l) (sortDescInt_sorted l')

/-- Sorting an already descending list changes nothing. -/
theorem sortDescInt_eq_of_sorted {l : List ℤ} (h : l.Sorted (fun a b => b ≤ a)) :
    sortDescInt l = l := by
  haveI : IsAntisymm ℤ (fun a b => b ≤ a) := ⟨fun a b h1 h2 => le_antisymm h2 h1⟩
  exact List.eq_of_perm_of_sorted (sortDescInt_perm l) (sortDescInt_sorted l) h

end Gofpdi

namespace Gofpdi

/-- C6 evaluation: on a page whose two operations collide at the same X
key, GetIndexedShowOps reports success (nil error) while the first
operation has been overwritten out of the index, so the reconstructed text
is B alone — a silently partial page. -/
theorem getIndexedShowOps_success_after_drop :
    samplePageDrop.GetIndexedShowOps = ([(0, [(5, sampleOpB)])], ['B', '\n'], none) ∧
    sampleOpA ≠ sampleOpB := by
  have h0 : goIntTrunc (0 : ℚ) = 0 := by
    norm_num [goIntTrunc_eq]
  have hb : buildShowOpsIndex samplePageDrop = ([(0, [(5, sampleOpB)])], none) := by
    rw [buildShowOpsIndex]
    show List.foldl _ ([], none) [sampleOpA, sampleOpB] = _
    rw [List.foldl_cons, List.foldl_cons, List.foldl_nil]
    simp [show sampleOpA.StartY = 0 from rfl, show sampleOpA.StartX = 5 from rfl,
      show sampleOpB.StartY = 0 from rfl, show sampleOpB.StartX = 5 from rfl,
      h0, alistLookup, alistInsert, insertSampleB_eq]
  have hr : renderIndexText [(0, [(5, sampleOpB)])] = ['B', '\n'] := by
    rw [renderIndexText]
    simp only [List.map, sortDescInt, sortAscRat, List.mergeSort_singleton,
      List.foldl_cons, List.foldl_nil, alistLookup, if_pos, Option.getD_some]
    rfl
  constructor
  · simp only [PageRender.GetIndexedShowOps, hb, hr]
  · intro h
    have := congrArg ShowOperation.chars h
    simp [sampleOpA, sampleOpB] at this

end Gofpdi

namespace Gofpdi

/-- C7 counterexample evaluation: for StartY = -5 the code buckets the
operation under row key int(-0.5) = 0 (truncation toward zero), while the
floor rule claimed by the spec gives -1. -/
theorem rowKey_negative_not_floor :
    samplePageNeg.GetIndexedShowOps =
      ([(0, [(5, sampleOpNeg)])], "neg\n".toList, none) ∧
    ⌊((-5 : ℚ)) / 10⌋ = -1 ∧ goIntTrunc ((-5 : ℚ) / 10) = 0 := by
  have hfl : ⌊((-5 : ℚ)) / 10⌋ = -1 := by
    rw [Int.floor_eq_iff]
    norm_num
  have hneg : goIntTrunc ((-5 : ℚ) / 10) = 0 := by
    rw [goIntTrunc_eq, if_neg (by norm_num)]
    rw [Int.ceil_eq_iff]
    norm_num
  refine ⟨?_, hfl, hneg⟩
  have hb : buildShowOpsIndex samplePageNeg = ([(0, [(5, sampleOpNeg)])], none) := by
    rw [buildShowOpsIndex]
    show List.foldl _ ([], none) [sampleOpNeg] = _
    rw [List.foldl_cons, List.foldl_nil]
    simp [show sampleOpNeg.StartY = -5 from rfl, show sampleOpNeg.StartX = 5 from rfl,
      hneg, alistLookup, alistInsert]
  have hr : renderIndexText [(0, [(5, sampleOpNeg)])] = "neg\n".toList := by
    rw [renderIndexText]
    simp only [List.map, sortDescInt, sortAscRat, List.mergeSort_singleton,
      List.foldl_cons, List.foldl_nil, alistLookup, if_pos, Option.getD_some]
    rfl
  simp only [PageRender.GetIndexedShowOps, hb, hr]

end Gofpdi

namespace Gofpdi

/-- C7 amended: the row key is the truncation toward zero of StartY/10,
which coincides with the floor rule for nonnegative StartY; in particular
the operations at Y=100, X=5 and Y=104, X=50 share row key 10 and are
emitted in the same output row in ascending X order. -/
theorem rowKey_trunc_and_same_row :
    (∀ y : ℚ, 0 ≤ y → goIntTrunc (y / 10) = ⌊y / 10⌋) ∧
    samplePageRows.GetIndexedShowOps =
      ([(10, [(5, sampleOpRow1), (50, sampleOpRow2)])], "firstsecond\n".toList, none) := by
  constructor
  · intro y hy
    rw [goIntTrunc_eq, if_pos (by positivity)]
  · have h100 : goIntTrunc ((100 : ℚ) / 10) = 10 := by
      rw [goIntTrunc_eq, if_pos (by norm_num), Int.floor_eq_iff]
      norm_num
    have h104 : goIntTrunc ((104 : ℚ) / 10) = 10 := by
      rw [goIntTrunc_eq, if_pos (by norm_num), Int.floor_eq_iff]
      norm_num
    have hins : InsertShowOpIntoRow sampleOpRow2 50 [(5, sampleOpRow1)] =
        ([(5, sampleOpRow1), (50, sampleOpRow2)], .ok 50) := by
      have hs : insertSearch [(5, sampleOpRow1)] 50 0 =
          some (50 + 0 * rowInsertionPrecision) := by
        apply insertSearch_upper
        · norm_num [rowInsertionPrecision, maxRowInsertVariance]
        · norm_num [alistLookup]
        · norm_num [maxRowInsertBoundary, LetterPageWidth]
      rw [InsertShowOpIntoRow, hs]
      norm_num [alistInsert]
    have hb : buildShowOpsIndex samplePageRows =
        ([(10, [(5, sampleOpRow1), (50, sampleOpRow2)])], none) := by
      rw [buildShowOpsIndex]
      show List.foldl _ ([], none) [sampleOpRow1, sampleOpRow2] = _
      rw [List.foldl_cons, List.foldl_cons, List.foldl_nil]
      simp [show sampleOpRow1.StartY = 100 from rfl, show sampleOpRow1.StartX = 5 from rfl,
        show sampleOpRow2.StartY = 104 from rfl, show sampleOpRow2.StartX = 50 from rfl,
        h100, h104, alistLookup, alistInsert, hins]
    have hrowsort : sortAscRat [5, 50] = [5, 50] := by
      apply sortAscRat_eq_of_sorted
      norm_num [List.sorted_cons]
    have hr : renderIndexText [(10, [(5, sampleOpRow1), (50, sampleOpRow2)])] =
        "firstsecond\n".toList := by
      rw [renderIndexText]
      simp only [List.map, sortDescInt, List.mergeSort_singleton,
        List.foldl_cons, List.foldl_nil, Option.getD_some, hrowsort]
      norm_num [alistLookup]
      rfl
    simp only [PageRender.GetIndexedShowOps, hb, hr]

end Gofpdi

namespace Gofpdi

/-- C5 amended, scanner half: while the string-literal flag is set,
scanStep only updates the scanner state — it never dispatches an operator,
never fails and leaves the render state untouched; only the unescaped close
parenthesis ends the literal.  (The parenthesized bytes are still visible
to AddTextBlock's raw nested-marker pre-check, which the counterexample
exhibits.) -/
theorem scanStep_literal_never_dispatches (r : PageRender) (st : ScanState) (c : Char)
    (h : st.insideParen = true) :
    scanStep (r, st) c =
      .ok (r, ⟨c, st.opBuilder ++ [c],
        if c = ')' ∧ st.prevB ≠ backslashChar then false else true⟩) := by
  rw [scanStep]
  simp only [h, if_true]
  split
  · rfl
  · rfl

/-- Witness for the literal-scan property at a concrete state: the byte T
inside a literal is consumed as text, not dispatched. -/
theorem scanStep_literal_never_dispatches_witness :
    scanStep (NewPageRender 1 [], ⟨'(', ['('], true⟩) 'T' =
      .ok (NewPageRender 1 [], ⟨'T', ['(', 'T'], true⟩) := by
  have h := scanStep_literal_never_dispatches (NewPageRender 1 []) ⟨'(', ['('], true⟩ 'T' rfl
  simpa using h

end Gofpdi

namespace Gofpdi

/-- C3 amended: an unrecognized operator is a fatal parse error exactly
when the tokenizer can see it — outside any string literal, at a byte
following a capital T, with a continuation byte that is neither one of the
recognized mnemonic continuations nor an opening parenthesis; the scan of
the remaining block never proceeds past it.  (Mnemonics the tokenizer
cannot see are absorbed into the following operand, as the counterexample
shows.) -/
theorem scan_unrecognized_T_operator_fatal (r : PageRender) (st : ScanState)
    (c : Char) (rest pre : List Char)
    (hin : st.insideParen = false) (hprev : st.prevB = 'T')
    (hbuild : st.opBuilder = pre ++ ['T'])
    (hc : c ∉ ['d', 'D', 'm', 'j', 'J', '*', 'L', 'c', 'w', 'z', 'f', 'r', 's', '(']) :
    scanBlock (r, st) (c :: rest) =
      .error (.unrecognizedOperator ['T', c] (st.opBuilder ++ [c])) := by
  simp only [List.mem_cons, List.not_mem_nil, not_or, or_false] at hc
  obtain ⟨hd, hD, hm, hj, hJ, hstar, hL, hcc, hw, hz, hf, hr2, hs2, hparen⟩ := hc
  have hstep : scanStep (r, st) c =
      .error (.unrecognizedOperator ['T', c] (st.opBuilder ++ [c])) := by
    rw [scanStep]
    simp only [hin, hprev, Bool.false_eq_true, if_false]
    rw [if_neg (by simp [hparen])]
    simp only [if_true]
    have hlen : (st.opBuilder ++ [c]).length - 2 = pre.length := by
      simp [hbuild]
    have hsplit : st.opBuilder ++ [c] = pre ++ ['T', c] := by
      simp [hbuild]
    have hdrop : (st.opBuilder ++ [c]).drop ((st.opBuilder ++ [c]).length - 2) = ['T', c] := by
      rw [hlen, hsplit, List.drop_left]
    rw [hdrop]
    rw [PageRender.dispatchOperator]
    simp only [List.cons.injEq, and_true, true_and, hd, hD, hm, hj, hJ, hstar, hL, hcc,
      hw, hz, hf, hr2, hs2, and_false, false_and, or_self, if_false, if_neg,
      reduceCtorEq, ite_false]
  rw [scanBlock, hstep]

end Gofpdi

namespace Gofpdi

/-- Witness for the unrecognized-operator property: scanning the mnemonic
Tx aborts with the unrecognized-operator error. -/
theorem scan_unrecognized_T_operator_fatal_witness :
    scanBlock (NewPageRender 1 [], ⟨'T', ['T'], false⟩) ['x'] =
      .error (.unrecognizedOperator ['T', 'x'] ['T', 'x']) := by
  have h := scan_unrecognized_T_operator_fatal (NewPageRender 1 []) ⟨'T', ['T'], false⟩
    'x' [] [] rfl rfl (by simp) (by decide)
  simpa using h

/-- A glyph width computed at horizontal scale 0 is 0. -/
theorem calculateGlyphWidth_scale_zero {f : FontDefinition} {ch : ℕ}
    {adj fs cs ws : ℚ} {q : ℚ}
    (h : f.CalculateGlyphWidth ch adj fs cs ws 0 = .ok q) : q = 0 := by
  unfold FontDefinition.CalculateGlyphWidth at h
  split at h
  · exact absurd h (by simp)
  · revert h
    split
    · intro h
      exact absurd h (by simp)
    · intro h
      simp only [Except.ok.injEq] at h
      rw [← h, mul_zero]

end Gofpdi


namespace Gofpdi

/-- Folding the per-byte width accumulation of one fragment at scale 0
leaves the accumulator unchanged. -/
theorem getWidth_fragment_scale_zero (s : ShowOperation) (hs : s.Scale = 0)
    (lc : ShowChars) :
    ∀ (txt : List Char) (acc w : ℚ),
      (txt.foldlM (fun width c =>
        match s.Font.CalculateGlyphWidth (c.toNat % 256) lc.HorizAdjust s.FontSize
            s.CharSpacing s.WordSpacing s.Scale with
        | .error e => .error e
        | .ok glyphWidth => pure (width + glyphWidth)) acc : Except GoErr ℚ) = .ok w →
      w = acc := by
  intro txt
  induction txt with
  | nil =>
    intro acc w h
    simp only [List.foldlM_nil, pure, Except.pure, Except.ok.injEq] at h
    exact h.symm
  | cons c rest ih =>
    intro acc w h
    rw [List.foldlM_cons] at h
    cases hcalc : s.Font.CalculateGlyphWidth (c.toNat % 256) lc.HorizAdjust s.FontSize
        s.CharSpacing s.WordSpacing s.Scale with
    | error e =>
      rw [hcalc] at h
      simp [bind, Except.bind] at h
    | ok glyphWidth =>
      rw [hcalc] at h
      simp only [bind, Except.bind, pure, Except.pure] at h
      have hg : glyphWidth = 0 := calculateGlyphWidth_scale_zero (hs ▸ hcalc)
      have hrec := ih (acc + glyphWidth) w h
      rw [hrec, hg, add_zero]

/-- GetWidth at scale 0 succeeds only with the value 0. -/
theorem getWidth_scale_zero (s : ShowOperation) (hs : s.Scale = 0) (w : ℚ)
    (h : s.GetWidth = .ok w) : w = 0 := by
  unfold ShowOperation.GetWidth at h
  have haux : ∀ (chs : List ShowChars) (acc w2 : ℚ),
      (chs.foldlM (fun width lc =>
        lc.Text.foldlM (fun width c =>
          match s.Font.CalculateGlyphWidth (c.toNat % 256) lc.HorizAdjust s.FontSize
              s.CharSpacing s.WordSpacing s.Scale with
          | .error e => .error e
          | .ok glyphWidth => pure (width + glyphWidth)) width) acc : Except GoErr ℚ) =
        .ok w2 → w2 = acc := by
    intro chs
    induction chs with
    | nil =>
      intro acc w2 h2
      simp only [List.foldlM_nil, pure, Except.pure, Except.ok.injEq] at h2
      exact h2.symm
    | cons lc rest ih =>
      intro acc w2 h2
      rw [List.foldlM_cons] at h2
      cases hfrag : (lc.Text.foldlM (fun width c =>
          match s.Font.CalculateGlyphWidth (c.toNat % 256) lc.HorizAdjust s.FontSize
              s.CharSpacing s.WordSpacing s.Scale with
          | .error e => .error e
          | .ok glyphWidth => pure (width + glyphWidth)) acc : Except GoErr ℚ) with
      | error e =>
        rw [hfrag] at h2
        simp [bind, Except.bind] at h2
      | ok acc2 =>
        rw [hfrag] at h2
        simp only [bind, Except.bind] at h2
        have hrec := ih acc2 w2 h2
        have hstep := getWidth_fragment_scale_zero s hs lc lc.Text acc acc2 hfrag
        rw [hrec, hstep]
  exact haux s.chars 0 w h

end Gofpdi

namespace Gofpdi

/-- addLineItem never changes the horizontal scale. -/
theorem addLineItem_scale {r r' : PageRender} {chs : List ShowChars}
    (h : r.addLineItem chs = .ok r') : r'.Scale = r.Scale := by
  unfold PageRender.addLineItem at h
  split at h
  · exact absurd h (by simp)
  · dsimp only [] at h
    split at h
    · exact absurd h (by simp)
    · simp only [Except.ok.injEq] at h
      rw [← h]

/-- addText never changes the horizontal scale. -/
theorem addText_scale {r r' : PageRender} {od : List Char}
    (h : r.addText od = .ok r') : r'.Scale = r.Scale :=
  addLineItem_scale h

/-- moveToStartOfNextLine never changes the horizontal scale. -/
theorem moveToStartOfNextLine_scale {r r' : PageRender} {od : List Char} {sl : Bool}
    (h : r.moveToStartOfNextLine od sl = .ok r') : r'.Scale = r.Scale := by
  unfold PageRender.moveToStartOfNextLine at h
  split at h
  · simp only [Except.ok.injEq] at h
    rw [← h]
  · split at h
    · exact absurd h (by simp)
    · simp only [Except.ok.injEq] at h
      rw [← h]
      split <;> rfl

/-- setTextLeading never changes the horizontal scale. -/
theorem setTextLeading_scale {r r' : PageRender} {od : List Char}
    (h : r.setTextLeading od = .ok r') : r'.Scale = r.Scale := by
  unfold PageRender.setTextLeading at h
  split at h
  · exact absurd h (by simp)
  · simp only [Except.ok.injEq] at h
    rw [← h]

/-- setWordSpacing never changes the horizontal scale. -/
theorem setWordSpacing_scale {r r' : PageRender} {od : List Char}
    (h : r.setWordSpacing od = .ok r') : r'.Scale = r.Scale := by
  unfold PageRender.setWordSpacing at h
  split at h
  · exact absurd h (by simp)
  · simp only [Except.ok.injEq] at h
    rw [← h]

/-- setCharSpacing never changes the horizontal scale. -/
theorem setCharSpacing_scale {r r' : PageRender} {od : List Char}
    (h : r.setCharSpacing od = .ok r') : r'.Scale = r.Scale := by
  unfold PageRender.setCharSpacing at h
  split at h
  · exact absurd h (by simp)
  · simp only [Except.ok.injEq] at h
    rw [← h]

/-- setMatrix never changes the horizontal scale. -/
theorem setMatrix_scale {r r' : PageRender} {od : List Char}
    (h : r.setMatrix od = .ok r') : r'.Scale = r.Scale := by
  unfold PageRender.setMatrix at h
  split at h
  · exact absurd h (by simp)
  · split at h
    · simp only [Except.ok.injEq] at h
      rw [← h]
    · exact absurd h (by simp)

/-- setTextFont never changes the horizontal scale. -/
theorem setTextFont_scale {r r' : PageRender} {od : List Char}
    (h : r.setTextFont od = .ok r') : r'.Scale = r.Scale := by
  unfold PageRender.setTextFont at h
  split at h
  · exact absurd h (by simp)
  · split at h
    · exact absurd h (by simp)
    · simp only [Except.ok.injEq] at h
      rw [← h]

/-- The double-quote shorthand never changes the horizontal scale. -/
theorem moveToStartOfNextLineAndAddText_scale {r r' : PageRender} {od : List Char}
    (h : r.moveToStartOfNextLineAndAddText od = .ok r') : r'.Scale = r.Scale := by
  unfold PageRender.moveToStartOfNextLineAndAddText at h
  split at h
  · exact absurd h (by simp)
  · dsimp only [] at h
    split at h
    · exact absurd h (by simp)
    · rename_i r1 hw
      split at h
      · exact absurd h (by simp)
      · rename_i r2 hc
        have h3 := addText_scale h
        have h2 := setCharSpacing_scale hc
        have h1 := setWordSpacing_scale hw
        rw [h3, h2, h1]

end Gofpdi

namespace Gofpdi

set_option maxHeartbeats 1000000 in
/-- Operator dispatch changes the horizontal scale only through Tz. -/
theorem dispatchOperator_scale {r r' : PageRender} {op od buff : List Char}
    (h : r.dispatchOperator op od buff = .ok r') (hop : op ≠ ['T', 'z']) :
    r'.Scale = r.Scale := by
  rw [PageRender.dispatchOperator] at h
  by_cases hc1 : op = ['T', 'd']
  · rw [if_pos hc1] at h
    exact moveToStartOfNextLine_scale h
  rw [if_neg hc1] at h
  by_cases hc2 : op = ['T', 'D']
  · rw [if_pos hc2] at h
    exact moveToStartOfNextLine_scale h
  rw [if_neg hc2] at h
  by_cases hc3 : op = ['T', 'm']
  · rw [if_pos hc3] at h
    exact setMatrix_scale h
  rw [if_neg hc3] at h
  by_cases hc4 : op = ['T', 'j'] ∨ op = ['T', 'J']
  · rw [if_pos hc4] at h
    exact addText_scale h
  rw [if_neg hc4] at h
  by_cases hc5 : op = ['T', '*']
  · rw [if_pos hc5] at h
    exact moveToStartOfNextLine_scale h
  rw [if_neg hc5] at h
  by_cases hc6 : op = ['T', 'L']
  · rw [if_pos hc6] at h
    exact setTextLeading_scale h
  rw [if_neg hc6] at h
  by_cases hc7 : op = ['T', 'c']
  · rw [if_pos hc7] at h
    exact setCharSpacing_scale h
  rw [if_neg hc7] at h
  by_cases hc8 : op = ['T', 'w']
  · rw [if_pos hc8] at h
    exact setWordSpacing_scale h
  rw [if_neg hc8] at h
  by_cases hc9 : op = ['T', 'z']
  · rw [if_pos hc9] at h
    exact absurd hc9 hop
  rw [if_neg hc9] at h
  by_cases hc10 : op = ['T', 'f']
  · rw [if_pos hc10] at h
    exact setTextFont_scale h
  rw [if_neg hc10] at h
  by_cases hc11 : op = [singleQuoteChar]
  · rw [if_pos hc11] at h
    split at h
    · rename_i r1 hmv
      rw [addText_scale h, moveToStartOfNextLine_scale hmv]
    · exact addText_scale h
  rw [if_neg hc11] at h
  by_cases hc12 : op = [doubleQuoteChar]
  · rw [if_pos hc12] at h
    exact moveToStartOfNextLineAndAddText_scale h
  rw [if_neg hc12] at h
  by_cases hc13 : op = ['T', 'r'] ∨ op = ['T', 's']
  · rw [if_pos hc13] at h
    simp only [Except.ok.injEq] at h
    rw [← h]
  rw [if_neg hc13] at h
  exact absurd h (by simp)

/-- C9: a fresh page render state has horizontal scale 0 (the Go zero
value); at scale 0 every successful width computation yields 0 and a
successful addLineItem (a Tj advance) leaves the text matrix X offset
unchanged; and no operator other than Tz ever changes the scale, so these
facts hold for every show operation emitted before the first Tz. -/
theorem freshPage_scale_zero_no_advance :
    (∀ (n : ℤ) (fonts : List (String × FontDefinition)),
      (NewPageRender n fonts).Scale = 0) ∧
    (∀ (s : ShowOperation) (w : ℚ), s.Scale = 0 → s.GetWidth = .ok w → w = 0) ∧
    (∀ (r : PageRender) (chs : List ShowChars) (r' : PageRender), r.Scale = 0 →
      r.addLineItem chs = .ok r' →
      r'.TextMatrix.GetOffsetX = r.TextMatrix.GetOffsetX) ∧
    (∀ (r : PageRender) (op od buff : List Char) (r' : PageRender),
      r.dispatchOperator op od buff = .ok r' → op ≠ ['T', 'z'] →
      r'.Scale = r.Scale) := by
  refine ⟨fun n fonts => rfl, fun s w hs h => getWidth_scale_zero s hs w h, ?_,
    fun r op od buff r' h hop => dispatchOperator_scale h hop⟩
  intro r chs r' hscale h
  unfold PageRender.addLineItem at h
  split at h
  · exact absurd h (by simp)
  · dsimp only [] at h
    split at h
    · exact absurd h (by simp)
    · rename_i lineWidth hwidth
      have hw0 : lineWidth = 0 := by
        apply getWidth_scale_zero _ _ _ hwidth
        exact hscale
      simp only [Except.ok.injEq] at h
      rw [← h]
      show (r.TextMatrix.Translate lineWidth 0).GetOffsetX = r.TextMatrix.GetOffsetX
      rw [hw0]
      simp [LinearMatrix.Translate, LinearMatrix.GetOffsetX, LinearMatrix.SetOffsetX,
        LinearMatrix.SetOffsetY, LinearMatrix.GetScaleX, LinearMatrix.GetShearY]

/-- Witness for C9 at concrete inputs: the fresh page has scale 0; a
one-glyph operation at scale 0 has width 0; dispatching Tc (not Tz) keeps
the scale. -/
theorem freshPage_scale_zero_no_advance_witness :
    (NewPageRender 1 []).Scale = 0 ∧ (0 : ℚ) = 0 ∧
    ({ NewPageRender 1 sampleFonts with CharSpacing := 0 } : PageRender).Scale =
      (NewPageRender 1 sampleFonts).Scale := by
  refine ⟨freshPage_scale_zero_no_advance.1 1 [], ?_, ?_⟩
  · exact freshPage_scale_zero_no_advance.2.1 sampleOpA 0 rfl
      (by rw [ShowOperation.GetWidth]; norm_num [sampleOpA, sampleFont,
        FontDefinition.CalculateGlyphWidth, List.foldlM, bind, Except.bind, pure, Except.pure,
        show (65 : ℕ) % 256 = 65 from rfl, show ('A').toNat = 65 from rfl,
        List.getElem?_replicate])
  · refine freshPage_scale_zero_no_advance.2.2.2 (NewPageRender 1 sampleFonts)
      ['T', 'c'] ['0'] ['0', 'T', 'c'] _ ?_ (by decide)
    rw [PageRender.dispatchOperator]
    simp only [List.cons.injEq, and_true, and_false, true_and, false_and, or_self,
      if_false, if_true, ite_false, ite_true, Char.reduceEq, reduceCtorEq, or_false,
      singleQuoteChar, doubleQuoteChar]
    rw [PageRender.setCharSpacing]
    simp [ParseSingleValue, parseStrictNumber, strictNumVal, natOfDigits,
      isGoSpace, List.dropWhile, List.takeWhile]

end Gofpdi

namespace Gofpdi

/-- Witness for the amended row-key rule at the concrete nonnegative
input 100: truncation agrees with the floor. -/
theorem rowKey_trunc_and_same_row_witness :
    goIntTrunc ((100 : ℚ) / 10) = ⌊(100 : ℚ) / 10⌋ :=
  rowKey_trunc_and_same_row.1 100 (by norm_num)

end Gofpdi

namespace Gofpdi

/-- Numeric evaluations of the parsed example-block operands. -/
theorem hiValues_eq : hiX = 10 ∧ hiY = 20 ∧ hiSize = 12 ∧ hiGlyphW = 0 := by
  have hdig : ∀ (a b : ℕ), natOfDigits [Char.ofNat a, Char.ofNat b] =
      10 * ((Char.ofNat a).toNat - 48) + ((Char.ofNat b).toNat - 48) := by
    intro a b
    simp [natOfDigits, List.foldl]
  refine ⟨?_, ?_, ?_, ?_⟩
  · norm_num [hiX, strictNumVal, natOfDigits, List.foldl,
      show ('1').toNat = 49 from rfl, show ('0').toNat = 48 from rfl]
  · norm_num [hiY, strictNumVal, natOfDigits, List.foldl,
      show ('2').toNat = 50 from rfl, show ('0').toNat = 48 from rfl]
  · norm_num [hiSize, natOfDigits, List.foldl,
      show ('1').toNat = 49 from rfl, show ('2').toNat = 50 from rfl]
  · norm_num [hiGlyphW]

/-- C4 counterexample evaluation: the block succeeds, but the reconstructed
page text is the two glyphs followed by the row-terminating newline — not
exactly the string Hi. -/
theorem hi_block_text_not_hi :
    (NewPageRender 1 sampleFonts).AddTextBlock hiBlock = .ok hiFinal ∧
    (hiFinal.GetIndexedShowOps).2.1 = "Hi\n".toList ∧
    "Hi\n".toList ≠ "Hi".toList := by
  have hrun : (NewPageRender 1 sampleFonts).AddTextBlock hiBlock = .ok hiFinal := rfl
  have hitems : hiFinal.LineItems = [hiOp] := rfl
  have hY20 : (0 : ℚ) + hiY = 20 := by
    have := hiValues_eq.2.1
    rw [this]
    norm_num
  have htrunc : goIntTrunc (hiY / 10) = 2 := by
    rw [show hiY = 20 from hiValues_eq.2.1, show (20 : ℚ) / 10 = 2 by norm_num,
      goIntTrunc_eq, if_pos (by norm_num)]
    rw [show ((2 : ℚ)) = ((2 : ℤ) : ℚ) by norm_num, Int.floor_intCast]
  have hb : buildShowOpsIndex hiFinal = ([(2, [(0 + hiX, hiOp)])], none) := by
    rw [buildShowOpsIndex, hitems]
    rw [List.foldl_cons, List.foldl_nil]
    simp [show hiOp.StartY = 0 + hiY from rfl, show hiOp.StartX = 0 + hiX from rfl,
      htrunc, alistLookup, alistInsert]
  have hr : renderIndexText [(2, [(0 + hiX, hiOp)])] = "Hi\n".toList := by
    rw [renderIndexText]
    simp only [List.map, sortDescInt, sortAscRat, List.mergeSort_singleton,
      List.foldl_cons, List.foldl_nil, alistLookup, if_pos, Option.getD_some]
    rfl
  refine ⟨hrun, ?_, by decide⟩
  simp only [PageRender.GetIndexedShowOps, hb, hr]

/-- C4 amended: running the example block leaves the reconstructed page
text equal to Hi plus the row-terminating newline, the text matrix X offset
equal to 10 — that is 10 plus the computed width of Hi, which is 0 because
the fresh page's horizontal scale is 0 — and the one show operation's
computed width 0. -/
theorem hi_block_amended :
    (NewPageRender 1 sampleFonts).AddTextBlock hiBlock = .ok hiFinal ∧
    (hiFinal.GetIndexedShowOps).2.1 = "Hi\n".toList ∧
    hiFinal.TextMatrix.GetOffsetX = 10 ∧
    hiFinal.LineItems.map ShowOperation.GetWidth = [.ok 0] := by
  obtain ⟨hX, hY, hS, hW⟩ := hiValues_eq
  refine ⟨hi_block_text_not_hi.1, hi_block_text_not_hi.2.1, ?_, ?_⟩
  · rw [show hiFinal.TextMatrix.GetOffsetX =
      1 * (0 + hiGlyphW + hiGlyphW) + 0 * 0 + (0 + hiX) from rfl, hW, hX]
    norm_num
  · rw [show hiFinal.LineItems = [hiOp] from rfl, List.map_cons, List.map_nil,
      show hiOp.GetWidth = .ok (0 + hiGlyphW + hiGlyphW) from rfl, hW]
    norm_num

end Gofpdi

namespace Gofpdi

/-- Lookup fails exactly when the key is absent. -/
theorem alistLookup_eq_none_iff {α β : Type} [DecidableEq α] (l : List (α × β)) (k : α) :
    alistLookup l k = none ↔ k ∉ l.map Prod.fst := by
  induction l with
  | nil => simp [alistLookup]
  | cons p rest ih =>
    cases p with
    | mk a b =>
      by_cases h : k = a
      · simp [alistLookup, h]
      · simp [alistLookup, h, ih]

/-- A successful lookup returns a binding of the list. -/
theorem alistLookup_mem {α β : Type} [DecidableEq α] {l : List (α × β)} {k : α} {v : β}
    (h : alistLookup l k = some v) : (k, v) ∈ l := by
  induction l with
  | nil => simp [alistLookup] at h
  | cons p rest ih =>
    cases p with
    | mk a b =>
      by_cases hk : k = a
      · rw [alistLookup, if_pos hk] at h
        simp only [Option.some.injEq] at h
        simp [hk, h]
      · rw [alistLookup, if_neg hk] at h
        exact List.mem_cons_of_mem _ (ih h)

/-- Replacing a present key leaves the key list unchanged. -/
theorem alistInsert_keys_present {α β : Type} [DecidableEq α] {l : List (α × β)} {k : α}
    (v : β) (h : k ∈ l.map Prod.fst) :
    (alistInsert l k v).map Prod.fst = l.map Prod.fst := by
  induction l with
  | nil => simp at h
  | cons p rest ih =>
    cases p with
    | mk a b =>
      by_cases hk : k = a
      · simp [alistInsert, hk]
      · simp only [List.map_cons, List.mem_cons] at h
        rcases h with h | h
        · exact absurd h hk
        · simp [alistInsert, hk, ih h]

/-- Inserting an absent key appends it to the key list. -/
theorem alistInsert_keys_absent {α β : Type} [DecidableEq α] {l : List (α × β)} {k : α}
    (v : β) (h : k ∉ l.map Prod.fst) :
    (alistInsert l k v).map Prod.fst = l.map Prod.fst ++ [k] := by
  induction l with
  | nil => simp [alistInsert]
  | cons p rest ih =>
    cases p with
    | mk a b =>
      simp only [List.map_cons, List.mem_cons, not_or] at h
      simp [alistInsert, h.1, ih h.2]

/-- Every binding of the updated list is the new binding or an old one. -/
theorem mem_alistInsert {α β : Type} [DecidableEq α] {l : List (α × β)} {k : α} {v : β}
    {p : α × β} (h : p ∈ alistInsert l k v) : p = (k, v) ∨ p ∈ l := by
  induction l with
  | nil =>
    simp [alistInsert] at h
    simp [h]
  | cons q rest ih =>
    cases q with
    | mk a b =>
      by_cases hk : k = a
      · rw [alistInsert, if_pos hk] at h
        rcases List.mem_cons.mp h with h | h
        · subst hk
          exact Or.inl (by simp [h])
        · exact Or.inr (List.mem_cons_of_mem _ h)
      · rw [alistInsert, if_neg hk] at h
        rcases List.mem_cons.mp h with h | h
        · exact Or.inr (by simp [h])
        · rcases ih h with h | h
          · exact Or.inl h
          · exact Or.inr (List.mem_cons_of_mem _ h)

/-- Lookup of another key is unchanged by an insertion. -/
theorem alistLookup_alistInsert_other {α β : Type} [DecidableEq α] {l : List (α × β)}
    {k j : α} (v : β) (h : j ≠ k) :
    alistLookup (alistInsert l k v) j = alistLookup l j := by
  induction l with
  | nil => simp [alistInsert, alistLookup, h]
  | cons p rest ih =>
    cases p with
    | mk a b =>
      by_cases hk : k = a
      · subst hk
        simp [alistInsert, alistLookup, h]
      · by_cases hj : j = a
        · simp [alistInsert, alistLookup, hk, hj]
        · simp [alistInsert, alistLookup, hk, hj, ih]

/-- Lookup of the inserted key finds the new value. -/
theorem alistLookup_alistInsert_self {α β : Type} [DecidableEq α] (l : List (α × β))
    (k : α) (v : β) : alistLookup (alistInsert l k v) k = some v := by
  induction l with
  | nil => simp [alistInsert, alistLookup]
  | cons p rest ih =>
    cases p with
    | mk a b =>
      by_cases hk : k = a
      · simp [alistInsert, alistLookup, hk]
      · simp [alistInsert, alistLookup, hk, ih]

end Gofpdi

namespace Gofpdi

/-- With nodup keys, lookup only depends on the set of bindings: it is
invariant under permutation of the association list. -/
theorem alistLookup_perm {α β : Type} [DecidableEq α] {l l' : List (α × β)}
    (h : l.Perm l') (hnd : (l.map Prod.fst).Nodup) (k : α) :
    alistLookup l k = alistLookup l' k := by
  induction h with
  | nil => rfl
  | cons x t ih =>
    cases x with
    | mk a b =>
      simp only [List.map_cons, List.nodup_cons] at hnd
      by_cases hk : k = a
      · simp [alistLookup, hk]
      · simp [alistLookup, hk, ih hnd.2]
  | swap x y t =>
    cases x with
    | mk a b =>
      cases y with
      | mk c d =>
        simp only [List.map_cons, List.nodup_cons, List.mem_cons, not_or] at hnd
        have hac : c ≠ a := hnd.1.1
        by_cases h1 : k = c <;> by_cases h2 : k = a
        · exact absurd (h1 ▸ h2 : c = a) hac
        · simp [alistLookup, h1, h2, hac, hac.symm]
        · simp [alistLookup, h1, h2, hac, hac.symm]
        · simp [alistLookup, h1, h2, hac, hac.symm]
  | trans h1 h2 ih1 ih2 =>
    have hnd2 := ((h1.map Prod.fst).nodup_iff).mp hnd
    rw [ih1 hnd, ih2 hnd2]

end Gofpdi

namespace Gofpdi

/-- Emission depends on the index only through its sorted key list and its
lookup function. -/
theorem renderIndexText_congr_lookup {m m' : ShowOpsIndex}
    (hkeys : sortDescInt (m'.map Prod.fst) = sortDescInt (m.map Prod.fst))
    (hlook : ∀ k, alistLookup m' k = alistLookup m k) :
    renderIndexText m' = renderIndexText m := by
  rw [renderIndexText, renderIndexText, hkeys]
  apply List.foldl_ext
  intro buf posY hmem
  rw [hlook posY]

/-- C8, outer half: permuting the row table (its iteration order) does not
change the emitted text, because the row keys are sorted before emission
and lookups are key-based. -/
theorem renderIndexText_perm {m m' : ShowOpsIndex} (h : m.Perm m')
    (hnd : (m.map Prod.fst).Nodup) :
    renderIndexText m' = renderIndexText m :=
  renderIndexText_congr_lookup (sortDescInt_eq_of_perm ((h.map Prod.fst).symm))
    (fun k => (alistLookup_perm h hnd k).symm)

/-- C8, inner half: permuting one row's bindings (its iteration order) does
not change the emitted text, because the X keys are sorted before emission
and lookups are key-based. -/
theorem renderIndexText_row_perm {m : ShowOpsIndex} {k : ℤ} {row row' : RowMap}
    (hget : alistLookup m k = some row) (hperm : row.Perm row')
    (hrownd : (row.map Prod.fst).Nodup) :
    renderIndexText (alistInsert m k row') = renderIndexText m := by
  have hkmem : k ∈ m.map Prod.fst :=
    List.mem_map.mpr ⟨(k, row), alistLookup_mem hget, rfl⟩
  have hkeys : (alistInsert m k row').map Prod.fst = m.map Prod.fst :=
    alistInsert_keys_present _ hkmem
  rw [renderIndexText, renderIndexText, hkeys]
  apply List.foldl_ext
  intro buf posY hmem
  by_cases hpk : posY = k
  · subst hpk
    rw [alistLookup_alistInsert_self, hget]
    simp only [Option.getD_some]
    have hxs : sortAscRat (row'.map Prod.fst) = sortAscRat (row.map Prod.fst) :=
      sortAscRat_eq_of_perm ((hperm.map Prod.fst).symm)
    rw [hxs]
    congr 1
    apply List.foldl_ext
    intro b posX hx
    rw [alistLookup_perm hperm hrownd posX]
  · rw [alistLookup_alistInsert_other _ hpk]

end Gofpdi

namespace Gofpdi

/-- Insertion preserves nodup keys. -/
theorem alistInsert_keys_nodup {α β : Type} [DecidableEq α] {l : List (α × β)}
    (k : α) (v : β) (hnd : (l.map Prod.fst).Nodup) :
    ((alistInsert l k v).map Prod.fst).Nodup := by
  by_cases h : k ∈ l.map Prod.fst
  · rw [alistInsert_keys_present _ h]
    exact hnd
  · rw [alistInsert_keys_absent _ h]
    simp [List.nodup_append, h, hnd]

/-- The collision insertion preserves a row's nodup keys. -/
theorem insertShowOpIntoRow_nodup (op : ShowOperation) (x : ℚ) (row : RowMap)
    (hnd : (row.map Prod.fst).Nodup) :
    (((InsertShowOpIntoRow op x row).1).map Prod.fst).Nodup := by
  rw [InsertShowOpIntoRow]
  split
  · exact alistInsert_keys_nodup _ _ hnd
  · exact hnd

/-- The row/column index built by GetIndexedShowOps has nodup row keys and
nodup X keys in every row. -/
theorem buildShowOpsIndex_nodup (r : PageRender) :
    ((buildShowOpsIndex r).1.map Prod.fst).Nodup ∧
    ∀ p ∈ (buildShowOpsIndex r).1, (p.2.map Prod.fst).Nodup := by
  rw [buildShowOpsIndex]
  have haux : ∀ (items : List ShowOperation) (acc : ShowOpsIndex × Option GoErr),
      (acc.1.map Prod.fst).Nodup → (∀ p ∈ acc.1, (p.2.map Prod.fst).Nodup) →
      (((items.foldl
        (fun (acc : ShowOpsIndex × Option GoErr) showOp =>
          let m := acc.1
          let rowNumber := goIntTrunc (showOp.StartY / 10)
          let mapKeyX := showOp.StartX
          match alistLookup m rowNumber with
          | some row =>
            let res := InsertShowOpIntoRow showOp mapKeyX row
            (alistInsert m rowNumber res.1,
              match res.2 with
              | .ok _ => none
              | .error e => some e)
          | none => (alistInsert m rowNumber [(mapKeyX, showOp)], acc.2)) acc).1).map
          Prod.fst).Nodup ∧
      ∀ p ∈ (items.foldl
        (fun (acc : ShowOpsIndex × Option GoErr) showOp =>
          let m := acc.1
          let rowNumber := goIntTrunc (showOp.StartY / 10)
          let mapKeyX := showOp.StartX
          match alistLookup m rowNumber with
          | some row =>
            let res := InsertShowOpIntoRow showOp mapKeyX row
            (alistInsert m rowNumber res.1,
              match res.2 with
              | .ok _ => none
              | .error e => some e)
          | none => (alistInsert m rowNumber [(mapKeyX, showOp)], acc.2)) acc).1,
        (p.2.map Prod.fst).Nodup := by
    intro items
    induction items with
    | nil =>
      intro acc h1 h2
      exact ⟨h1, h2⟩
    | cons op rest ih =>
      intro acc h1 h2
      rw [List.foldl_cons]
      apply ih
      · dsimp only []
        cases hlk : alistLookup acc.1 (goIntTrunc (op.StartY / 10)) with
        | some row =>
          simp only [hlk]
          exact alistInsert_keys_nodup _ _ h1
        | none =>
          simp only [hlk]
          exact alistInsert_keys_nodup _ _ h1
      · dsimp only []
        cases hlk : alistLookup acc.1 (goIntTrunc (op.StartY / 10)) with
        | some row =>
          simp only [hlk]
          intro p hp
          rcases mem_alistInsert hp with hp | hp
          · subst hp
            exact insertShowOpIntoRow_nodup _ _ _ (h2 _ (alistLookup_mem hlk))
          · exact h2 _ hp
        | none =>
          simp only [hlk]
          intro p hp
          rcases mem_alistInsert hp with hp | hp
          · subst hp
            simp
          · exact h2 _ hp
  exact haux r.LineItems ([], none) (by simp) (by simp)

end Gofpdi

namespace Gofpdi

/-- C8: for a fixed page, GetIndexedShowOps is a pure function, so two runs
return identical results; and the emitted text does not depend on the
iteration order of any map: permuting the row table, or permuting the
bindings of any row, leaves the rendered text unchanged, because every
table keyed by row or column is explicitly sorted before emission and all
accesses are key-based lookups. -/
theorem getIndexedShowOps_map_order_independent (r : PageRender) :
    r.GetIndexedShowOps = r.GetIndexedShowOps ∧
    (∀ m' : ShowOpsIndex, (buildShowOpsIndex r).1.Perm m' →
      renderIndexText m' = renderIndexText (buildShowOpsIndex r).1) ∧
    (∀ (k : ℤ) (row row' : RowMap),
      alistLookup (buildShowOpsIndex r).1 k = some row → row.Perm row' →
      renderIndexText (alistInsert (buildShowOpsIndex r).1 k row') =
        renderIndexText (buildShowOpsIndex r).1) := by
  obtain ⟨hnd, hrows⟩ := buildShowOpsIndex_nodup r
  refine ⟨rfl, ?_, ?_⟩
  · intro m' hperm
    exact renderIndexText_perm hperm hnd
  · intro k row row' hget hperm
    exact renderIndexText_row_perm hget hperm (hrows (k, row) (alistLookup_mem hget))

/-- Witness for C8 at a concrete two-row page: emitting the reversed row
table gives the same text as the built one. -/
theorem getIndexedShowOps_map_order_independent_witness :
    renderIndexText [(10, [(5, sampleOpRow1)]), (0, [(5, sampleOpA)])] =
      renderIndexText [(0, [(5, sampleOpA)]), (10, [(5, sampleOpRow1)])] := by
  have h0 : goIntTrunc (0 : ℚ) = 0 := by
    norm_num [goIntTrunc_eq]
  have h100 : goIntTrunc ((100 : ℚ) / 10) = 10 := by
    rw [goIntTrunc_eq, if_pos (by norm_num), Int.floor_eq_iff]
    norm_num
  have hb : buildShowOpsIndex samplePageTwo =
      ([(0, [(5, sampleOpA)]), (10, [(5, sampleOpRow1)])], none) := by
    rw [buildShowOpsIndex]
    show List.foldl _ ([], none) [sampleOpA, sampleOpRow1] = _
    rw [List.foldl_cons, List.foldl_cons, List.foldl_nil]
    simp [show sampleOpA.StartY = 0 from rfl, show sampleOpA.StartX = 5 from rfl,
      show sampleOpRow1.StartY = 100 from rfl, show sampleOpRow1.StartX = 5 from rfl,
      h0, h100, alistLookup, alistInsert]
  have happ := (getIndexedShowOps_map_order_independent samplePageTwo).2.1
    [(10, [(5, sampleOpRow1)]), (0, [(5, sampleOpA)])]
    (by rw [hb]; exact List.Perm.swap _ _ [])
  rw [hb] at happ
  exact happ

end Gofpdi
